import Mathlib

/-!
Shallow embedding of the catalog ingestion and matching core of the
Procurement-Seneca application (src/app.py), together with proofs about
the claims of its specification.

Modelling conventions:
  * Python float arithmetic is modelled by exact rationals; the similarity
    threshold 0.55 and sequence ratios are exact fractions.  At every
    comparison appearing in a claim the float computation and the exact
    computation round to the same value.
  * Spreadsheet cell values are modelled by the inductive type Cell,
    covering the values the pipeline distinguishes: Python None, the float
    NaN used by pandas for missing data, strings, and integers.
  * Lowercasing is ASCII lowercasing, matching the behaviour of
    str.lower on the ASCII inputs the heuristics consume.
  * difflib.SequenceMatcher is modelled by its documented contract: the
    total size of the recursively chosen maximal matching blocks, ties
    broken by earliest start in the first, then the second sequence.  The
    autojunk popularity heuristic, which only activates for strings of at
    least 200 characters, is not modelled.
-/

/-- Cell values flowing through the ingestion pipeline. -/
inductive Cell where
  | null : Cell
  | nan : Cell
  | str (s : String) : Cell
  | int (n : Int) : Cell
deriving DecidableEq

/-- Python str() of a cell value: str(None) is "None", str(nan) is "nan". -/
def cellToStr : Cell → String
  | Cell.null => "None"
  | Cell.nan => "nan"
  | Cell.str s => s
  | Cell.int n => toString n

/-- Whether pandas treats the cell as missing (dropna / isna semantics):
None and NaN are missing, strings (even empty) and integers are not. -/
def cellIsNA : Cell → Bool
  | Cell.null => true
  | Cell.nan => true
  | _ => false

/-- needle is an initial segment of hay. -/
def isLeadOf : List Char → List Char → Bool
  | [], _ => true
  | _ :: _, [] => false
  | c :: cs, d :: ds => c = d && isLeadOf cs ds

/-- Python str.startswith. -/
def strStarts (s p : String) : Bool :=
  isLeadOf p.toList s.toList

/-- The whitespace characters Python str.strip removes. -/
def pyIsSpace (c : Char) : Bool :=
  c = ' ' || c = '\t' || c = '\n' || c = '\r' || c = '\x0b' || c = '\x0c'

/-- Python str.strip(): drop whitespace from both ends. -/
def pyStrip (s : String) : String :=
  String.mk (((s.toList.dropWhile pyIsSpace).reverse.dropWhile pyIsSpace).reverse)

/-- Python str.lower() (ASCII). -/
def strLower (s : String) : String :=
  String.mk (s.toList.map Char.toLower)

/-- Python ' '.join. -/
def joinSpace : List String → String
  | [] => ""
  | [x] => x
  | x :: xs => x ++ " " ++ joinSpace xs

/-- needle occurs contiguously inside hay (Python substring containment). -/
def hasSubList (hay needle : List Char) : Bool :=
  match hay with
  | [] => isLeadOf needle []
  | _ :: tl => isLeadOf needle hay || hasSubList tl needle

/-- Python `needle in hay` on strings. -/
def strHasSub (hay needle : String) : Bool :=
  hasSubList hay.toList needle.toList

/-- Characters kept by the normalization regex [a-z0-9] (after lowercasing). -/
def isKeptAlnum (c : Char) : Bool :=
  (decide ('a' ≤ c) && decide (c ≤ 'z')) || c.isDigit

/-- _normalize_text: lowercase, then delete every character outside [a-z0-9]. -/
def normalizeText (s : String) : String :=
  String.mk ((s.toList.map Char.toLower).filter isKeptAlnum)

/-! ## Column role classifier (_guess_column_map) -/

/-- The mutable role map of _guess_column_map; the empty string marks an
unresolved role, exactly as in the source. -/
structure ColumnMap where
  item : String
  description : String
  specification : String
  unit : String
  price : String
  currency : String
  photo : String
deriving DecidableEq

def emptyColumnMap : ColumnMap :=
  ⟨"", "", "", "", "", "", ""⟩

def itemKeys : List String := ["item", "name", "product", "title", "sku", "code", "article"]
def descriptionKeys : List String := ["desc", "description", "details"]
def specificationKeys : List String := ["spec", "specification", "standard"]
def unitKeys : List String := ["unit", "uom", "measure"]
def priceKeys : List String := ["price", "cost", "rate", "amount"]
def currencyKeys : List String := ["currency", "curr"]
def photoKeys : List String := ["photo", "image", "picture", "pic"]

/-- any(k in normalized for k in keys). -/
def anyKeyIn (keys : List String) (normalized : String) : Bool :=
  keys.any (fun k => strHasSub normalized k)

/-- One iteration of the column loop of _guess_column_map. -/
def guessStep (m : ColumnMap) (col : String) : ColumnMap :=
  if strStarts col "_" then m
  else if m.item = "" ∧ anyKeyIn itemKeys (normalizeText col) then { m with item := col }
  else if m.description = "" ∧ anyKeyIn descriptionKeys (normalizeText col) then { m with description := col }
  else if m.specification = "" ∧ anyKeyIn specificationKeys (normalizeText col) then { m with specification := col }
  else if m.unit = "" ∧ anyKeyIn unitKeys (normalizeText col) then { m with unit := col }
  else if m.price = "" ∧ anyKeyIn priceKeys (normalizeText col) then { m with price := col }
  else if m.currency = "" ∧ anyKeyIn currencyKeys (normalizeText col) then { m with currency := col }
  else if m.photo = "" ∧ anyKeyIn photoKeys (normalizeText col) then { m with photo := col }
  else m

/-- _guess_column_map over the list of column labels. -/
def guessColumnMap (cols : List String) : ColumnMap :=
  cols.foldl guessStep emptyColumnMap

/-- The seven column roles, in the priority order of the source if-chain. -/
inductive Role where
  | item | description | specification | unit | price | currency | photo
deriving DecidableEq

def rolePriority : Role → Nat
  | Role.item => 0
  | Role.description => 1
  | Role.specification => 2
  | Role.unit => 3
  | Role.price => 4
  | Role.currency => 5
  | Role.photo => 6

def roleKeys : Role → List String
  | Role.item => itemKeys
  | Role.description => descriptionKeys
  | Role.specification => specificationKeys
  | Role.unit => unitKeys
  | Role.price => priceKeys
  | Role.currency => currencyKeys
  | Role.photo => photoKeys

def getRole (m : ColumnMap) : Role → String
  | Role.item => m.item
  | Role.description => m.description
  | Role.specification => m.specification
  | Role.unit => m.unit
  | Role.price => m.price
  | Role.currency => m.currency
  | Role.photo => m.photo

/-- The label matches the keyword set of the role. -/
def roleMatches (r : Role) (col : String) : Bool :=
  anyKeyIn (roleKeys r) (normalizeText col)

/-- The column is eligible for assignment: no internal marker prefix and
its normalized label contains a keyword of the role. -/
def eligMatch (r : Role) (col : String) : Bool :=
  !(strStarts col "_") && roleMatches r col

/-- Write a column label into the field of the given role. -/
def setRole (m : ColumnMap) : Role → String → ColumnMap
  | Role.item, c => { m with item := c }
  | Role.description, c => { m with description := c }
  | Role.specification, c => { m with specification := c }
  | Role.unit, c => { m with unit := c }
  | Role.price, c => { m with price := c }
  | Role.currency, c => { m with currency := c }
  | Role.photo, c => { m with photo := c }

/-- The role whose branch of the guessStep if-chain fires for a column,
if any: the highest-priority unresolved role whose keywords match. -/
def firedRole (m : ColumnMap) (col : String) : Option Role :=
  if strStarts col "_" then none
  else if m.item = "" ∧ anyKeyIn itemKeys (normalizeText col) then some Role.item
  else if m.description = "" ∧ anyKeyIn descriptionKeys (normalizeText col) then some Role.description
  else if m.specification = "" ∧ anyKeyIn specificationKeys (normalizeText col) then some Role.specification
  else if m.unit = "" ∧ anyKeyIn unitKeys (normalizeText col) then some Role.unit
  else if m.price = "" ∧ anyKeyIn priceKeys (normalizeText col) then some Role.price
  else if m.currency = "" ∧ anyKeyIn currencyKeys (normalizeText col) then some Role.currency
  else if m.photo = "" ∧ anyKeyIn photoKeys (normalizeText col) then some Role.photo
  else none

/-! ## Price parsing (_parse_price) -/

/-- re.sub keeping only the characters of the class [0-9.\-]. -/
def filterPriceChars (s : String) : String :=
  String.mk (s.toList.filter (fun c => c.isDigit || c = '.' || c = '-'))

/-- Numeric value of a digit character list. -/
def digitsVal (l : List Char) : Nat :=
  l.foldl (fun acc c => acc * 10 + (c.toNat - '0'.toNat)) 0

/-- Numeric value of a digit string. -/
def natDigitsVal (s : String) : Nat :=
  digitsVal s.toList

/-- Magnitude of a float literal: digits with at most one decimal point
and at least one digit overall (the grammar Python float() accepts on
strings over the alphabet [0-9.], leading sign already removed). -/
def floatMag (l : List Char) : Option ℚ :=
  let ip := l.takeWhile Char.isDigit
  match l.dropWhile Char.isDigit with
  | [] => if ip = [] then none else some (digitsVal ip)
  | '.' :: fp =>
      if fp.all Char.isDigit ∧ (ip ≠ [] ∨ fp ≠ []) then
        some ((digitsVal ip : ℚ) + (digitsVal fp : ℚ) / (10 ^ fp.length : ℚ))
      else none
  | _ => none

/-- Python float() restricted to strings over the alphabet [0-9.-]
(the only strings _parse_price feeds it): an optional leading minus sign,
then digits with at most one decimal point and at least one digit.
Returns none where float() raises ValueError. -/
def pyFloatOfString (s : String) : Option ℚ :=
  match s.toList with
  | '-' :: rest => (floatMag rest).map (fun q => -q)
  | l => floatMag l

/-- _parse_price. -/
def parsePrice (v : Cell) : Option ℚ :=
  match v with
  | Cell.null => none
  | Cell.nan => none
  | v =>
      let cleaned := filterPriceChars (cellToStr v)
      if cleaned = "" then none else pyFloatOfString cleaned

/-! ## Catalog item builder (_build_catalog_items) -/

/-- A table row as seen by row.get: label/value pairs. -/
abbrev Row := List (String × Cell)

/-- pandas row.get(label, default). -/
def rowGet (r : Row) (k : String) (d : Cell) : Cell :=
  match r.find? (fun p => p.1 = k) with
  | some p => p.2
  | none => d

/-- str(row.get(col, '')).strip() as used for the text fields. -/
def strField (col : String) (r : Row) : String :=
  pyStrip (cellToStr (rowGet r col (Cell.str "")))

/-- Python int() on a string: optional sign then digits. -/
def pyIntOfString (s : String) : Option Int :=
  match (pyStrip s).toList with
  | '-' :: core =>
      if core ≠ [] ∧ core.all Char.isDigit then some (-(digitsVal core : Int)) else none
  | '+' :: core =>
      if core ≠ [] ∧ core.all Char.isDigit then some ((digitsVal core : Int)) else none
  | core =>
      if core ≠ [] ∧ core.all Char.isDigit then some ((digitsVal core : Int)) else none

/-- int(source_row) wrapped in try/except, applied to the raw cell. -/
def pyIntOfCell : Cell → Option Int
  | Cell.null => none
  | Cell.nan => none
  | Cell.int n => some n
  | Cell.str s => pyIntOfString s

/-- The image association map: (sheet name, 1-based row) to file path. -/
abbrev ImageMap := List ((String × Int) × String)

def imageLookup (im : ImageMap) (key : String × Int) : Option String :=
  match im.find? (fun p => p.1 = key) with
  | some p => some p.2
  | none => none

/-- The canonical catalog item record produced by the builder. -/
structure CatalogItem where
  item_name : String
  description : String
  specification : String
  unit : String
  price : Option ℚ
  currency : Cell
  price_available : Bool
  photo_ref : String
  image_path : String
  source_row : Option Int
deriving DecidableEq

/-- The trimmed item-name cell of a row, str(row.get(item_col, '')).strip(). -/
def itemNameOfRow (cm : ColumnMap) (r : Row) : String :=
  strField cm.item r

/-- The parsed price of a row under the column map. -/
def rowPriceVal (cm : ColumnMap) (r : Row) : Option ℚ :=
  if cm.price = "" then none else parsePrice (rowGet r cm.price Cell.null)

/-- The currency cell of a row under the column map. -/
def rowCurrencyVal (cm : ColumnMap) (dc : String) (r : Row) : Cell :=
  if cm.currency = "" then Cell.str dc else rowGet r cm.currency (Cell.str dc)

/-- The converted _source_row value of a row. -/
def rowSourceRow (r : Row) : Option Int :=
  pyIntOfCell (rowGet r "_source_row" Cell.null)

/-- The resolved image path of a row: looked up only when the image map
is non-empty and the source row is truthy. -/
def rowImagePath (im : ImageMap) (sn : String) (r : Row) : String :=
  (match rowSourceRow r with
    | some n => if im ≠ [] ∧ n ≠ 0 then imageLookup im (sn, n) else none
    | none => none).getD ""

/-- The CatalogItem record built from a row that passed the name check. -/
def mkBuiltItem (cm : ColumnMap) (dc : String) (im : ImageMap) (sn : String)
    (r : Row) : CatalogItem :=
  { item_name := itemNameOfRow cm r
    description := strField cm.description r
    specification := strField cm.specification r
    unit := strField cm.unit r
    price := rowPriceVal cm r
    currency := rowCurrencyVal cm dc r
    price_available := (rowPriceVal cm r).isSome
    photo_ref := strField cm.photo r
    image_path := rowImagePath im sn r
    source_row := rowSourceRow r }

/-- One iteration of the row loop of _build_catalog_items; none models the
continue that drops the row. -/
def buildRowItem (cm : ColumnMap) (dc : String) (im : ImageMap) (sn : String)
    (r : Row) : Option CatalogItem :=
  if itemNameOfRow cm r = "" ∨ strLower (itemNameOfRow cm r) = "nan" then none
  else some (mkBuiltItem cm dc im sn r)

/-- _build_catalog_items. -/
def buildCatalogItems (rows : List Row) (cm : ColumnMap) (dc : String)
    (im : ImageMap) (sn : String) : List CatalogItem :=
  if cm.item = "" then []
  else rows.filterMap (buildRowItem cm dc im sn)

/-! ## Tabular normalizer (_detect_header_row, _prepare_dataframe) -/

/-- A pandas DataFrame: column labels and rows, each row carrying its
index label (an integer for the frames this pipeline builds). -/
structure DataFrame where
  columns : List String
  rows : List (Int × List Cell)
deriving DecidableEq

def headerKeywords : List String :=
  ["item", "description", "spec", "unit", "qty", "price", "vendor", "article", "photo"]

/-- The non-empty, non-"nan" trimmed string values of a row. -/
def rowValues (cells : List Cell) : List String :=
  cells.filterMap (fun c =>
    let s := pyStrip (cellToStr c)
    if s ≠ "" ∧ strLower s ≠ "nan" then some s else none)

/-- The per-row test of _detect_header_row: at least 3 usable values and
some keyword occurring in their lowercased space-join. -/
def rowQualifies (cells : List Cell) : Bool :=
  let values := rowValues cells
  decide (3 ≤ values.length) &&
    headerKeywords.any (fun k => strHasSub (strLower (joinSpace values)) k)

/-- _detect_header_row: the index label of the first qualifying row
(none models the -1 sentinel). -/
def detectHeaderRow (df : DataFrame) : Option Int :=
  (df.rows.find? (fun r => rowQualifies r.2)).map (fun r => r.1)

/-- Column positions kept by dropna(axis=1, how='all'). -/
def keptIdx (df : DataFrame) : List Nat :=
  (List.range df.columns.length).filter
    (fun j => df.rows.any (fun r => !(cellIsNA (r.2.getD j Cell.nan))))

/-- dropna(axis=1, how='all'). -/
def dropEmptyCols (df : DataFrame) : DataFrame :=
  ⟨(keptIdx df).map (fun j => df.columns.getD j ""),
   df.rows.map (fun r => (r.1, (keptIdx df).map (fun j => r.2.getD j Cell.nan)))⟩

/-- dropna(axis=0, how='all'). -/
def dropEmptyRows (df : DataFrame) : DataFrame :=
  ⟨df.columns, df.rows.filter (fun r => r.2.any (fun c => !(cellIsNA c)))⟩

/-- cleaned['_source_row'] = cleaned.index + 1: overwrite an existing
_source_row column, otherwise append one. -/
def stampSourceRow (df : DataFrame) : DataFrame :=
  if "_source_row" ∈ df.columns then
    ⟨df.columns,
     df.rows.map (fun r =>
       (r.1, (df.columns.zip r.2).map
         (fun p => if p.1 = "_source_row" then Cell.int (r.1 + 1) else p.2)))⟩
  else
    ⟨df.columns ++ ["_source_row"],
     df.rows.map (fun r => (r.1, r.2 ++ [Cell.int (r.1 + 1)]))⟩

/-- _prepare_dataframe. -/
def prepareDataframe (df : DataFrame) : DataFrame :=
  if !(df.columns.any (fun c => strStarts c "Unnamed:")) then dropEmptyCols df
  else
    match detectHeaderRow df with
    | none => dropEmptyCols df
    | some hl =>
        let pos := hl.toNat
        let headerRow := ((df.rows.getD pos ((0 : Int), ([] : List Cell))).2).map cellToStr
        let below := df.rows.drop (pos + 1)
        let df2 := dropEmptyCols ⟨headerRow, below⟩
        let df3 := dropEmptyRows df2
        stampSourceRow df3

/-- The index labels are 0,1,2,... in order (the pandas RangeIndex carried
by every frame the loaders hand to the normalizer). -/
def RangeIndexed (df : DataFrame) : Prop :=
  df.rows.map Prod.fst = (List.range df.rows.length).map Int.ofNat

/-- Every row has exactly one cell per column label. -/
def Aligned (df : DataFrame) : Prop :=
  ∀ r ∈ df.rows, r.2.length = df.columns.length

instance : DecidablePred RangeIndexed := fun df =>
  inferInstanceAs (Decidable (df.rows.map Prod.fst = (List.range df.rows.length).map Int.ofNat))

instance : DecidablePred Aligned := fun df =>
  inferInstanceAs (Decidable (∀ r ∈ df.rows, _))

/-! ## Fuzzy matcher (_similarity_score, _match_catalog_item) -/

/-- Length of the common initial segment of two character lists. -/
def commonLead : List Char → List Char → Nat
  | c :: cs, d :: ds => if c = d then commonLead cs ds + 1 else 0
  | _, _ => 0

/-- All (start in a, start in b, block length) candidates. -/
def lmCandidates (a b : List Char) : List (Nat × Nat × Nat) :=
  (List.range a.length).flatMap
    (fun i => (List.range b.length).map
      (fun j => (i, j, commonLead (a.drop i) (b.drop j))))

/-- find_longest_match of SequenceMatcher (no junk): a maximal matching
block, ties broken by the earliest start in a, then the earliest in b. -/
def longestMatch (a b : List Char) : Nat × Nat × Nat :=
  (lmCandidates a b).foldl (fun best c => if best.2.2 < c.2.2 then c else best) (0, 0, 0)

/-- Total size of the recursively chosen matching blocks
(get_matching_blocks), fuel-indexed; fuel a.length + 1 suffices. -/
def matchingTotal : Nat → List Char → List Char → Nat
  | 0, _, _ => 0
  | fuel + 1, a, b =>
      let lm := longestMatch a b
      let i := lm.1
      let j := lm.2.1
      let k := lm.2.2
      if k = 0 then 0
      else
        matchingTotal fuel (a.take i) (b.take j) + k +
          matchingTotal fuel (a.drop (i + k)) (b.drop (j + k))

/-- _calculate_ratio: 2M / total length, and 1.0 for two empty sequences. -/
def calcRatioQ (m len : Nat) : ℚ :=
  if len ≠ 0 then (2 * m : ℚ) / (len : ℚ) else 1

/-- SequenceMatcher(None, a, b).ratio(). -/
def seqRatioQ (a b : String) : ℚ :=
  calcRatioQ (matchingTotal (a.toList.length + 1) a.toList b.toList)
    (a.toList.length + b.toList.length)

/-- _similarity_score. -/
def similarityScore (a b : String) : ℚ :=
  seqRatioQ (normalizeText a) (normalizeText b)

/-- One iteration of the candidate loop of _match_catalog_item. -/
def matchStep (proc : String) (acc : Option CatalogItem × ℚ) (item : CatalogItem) :
    Option CatalogItem × ℚ :=
  if acc.2 < similarityScore proc item.item_name then
    (some item, similarityScore proc item.item_name)
  else acc

/-- _match_catalog_item: the best candidate and its score when the best
score reaches 0.55, otherwise none (the empty dict of the source). -/
def matchCatalogItem (proc : String) (items : List CatalogItem) :
    Option (CatalogItem × ℚ) :=
  let r := items.foldl (matchStep proc) (none, 0)
  match r.1 with
  | some bm => if (11 / 20 : ℚ) ≤ r.2 then some (bm, r.2) else none
  | none => none

/-! ## Definitions following the words of the specification

These definitions are written from the words of the spec and of the
claims, not from the source; they exist only to compare claimed behaviour
with the embedded source behaviour. -/

/-- Price stripping as the claim words it: keep digits and decimal points
wherever they occur, and keep a minus sign only where it stays a leading
minus sign of the retained text. -/
def specStripGo : List Char → Bool → List Char
  | [], _ => []
  | c :: cs, kept =>
      if c.isDigit || c = '.' then c :: specStripGo cs true
      else if c = '-' && !kept then c :: specStripGo cs true
      else specStripGo cs kept

/-- Price stripping per the claim: all characters except digits, the
decimal point and a leading minus sign are removed. -/
def specStripPrice (s : String) : String :=
  String.mk (specStripGo s.toList false)

/-- Price parsing as claimed: strip per specStripPrice, then convert the
remainder to a number; a remainder with no digits yields a null price. -/
def specParsePrice (v : Cell) : Option ℚ :=
  match v with
  | Cell.null => none
  | Cell.nan => none
  | v =>
      let r := specStripPrice (cellToStr v)
      if r.toList.all (fun c => !c.isDigit) then none else pyFloatOfString r

/-- A cell bearing a header keyword, as the claim words it: non-empty,
not "nan", and its lowercased text contains a fixed keyword. -/
def specKeywordBearing (c : Cell) : Bool :=
  let s := pyStrip (cellToStr c)
  s ≠ "" && strLower s ≠ "nan" && headerKeywords.any (fun k => strHasSub (strLower s) k)

/-- The header condition as the claim words it: the row contains at least
3 keyword-bearing non-empty cells. -/
def specHeaderCond (cells : List Cell) : Bool :=
  decide (3 ≤ (cells.filter specKeywordBearing).length)

/-! ## Concrete example data used by counterexamples and witnesses -/

/-- A catalog row with no usable price cell. -/
def c4Row : Row := [("I", Cell.str "Widget"), ("P", Cell.str "N/A")]

/-- A column map resolving the item and price roles. -/
def c4Cm : ColumnMap := ⟨"I", "", "", "", "P", "", ""⟩

/-- A table whose first row passes the code header test (3 non-empty
cells, one containing a keyword) while only its second row has 3
keyword-bearing cells. -/
def hdrExampleDf : DataFrame :=
  ⟨["Unnamed: 0", "Unnamed: 1", "Unnamed: 2"],
   [(0, [Cell.str "this item x", Cell.str "b", Cell.str "c"]),
    (1, [Cell.str "item", Cell.str "price", Cell.str "unit"])]⟩

/-- The column labels of the CSV of Scenario A, including the _source_row
column the CSV loader appends. -/
def scenCols : List String :=
  ["Product Code", "Item Description", "Rate (USD)", "_source_row"]

/-- The single data row of the CSV of Scenario A. -/
def scenRow : Row :=
  [("Product Code", Cell.str "A1"),
   ("Item Description", Cell.str "Queen Bed Frame"),
   ("Rate (USD)", Cell.str "450.00"),
   ("_source_row", Cell.int 1)]

/-- The catalog item the code actually builds from Scenario A. -/
def scenItem (dc : String) : CatalogItem :=
  ⟨"A1", "Queen Bed Frame", "", "", some 450, Cell.str dc, true, "", "", some 1⟩

/-- An anonymous-labelled table with a detectable header row and one data
row, used to witness the source-row stamping. -/
def c8Df : DataFrame :=
  ⟨["Unnamed: 0", "Unnamed: 1", "Unnamed: 2"],
   [(0, [Cell.str "Item", Cell.str "Qty", Cell.str "Price"]),
    (1, [Cell.str "Chair", Cell.str "4", Cell.str "10"])]⟩

/-- The cell list of the surviving row of c8Df after normalization. -/
def c8OutCells : List Cell :=
  [Cell.str "Chair", Cell.str "4", Cell.str "10", Cell.int 2]

/-- A single-column table whose only column is entirely empty. -/
def c9BadDf : DataFrame := ⟨["A"], [(0, [Cell.nan])]⟩

/-- A single-column table with data in its column. -/
def c9GoodDf : DataFrame := ⟨["A"], [(0, [Cell.str "x"])]⟩

/-- A candidate catalog item whose name fuzzy-matches "chair" exactly
after normalization. -/
def w1Item : CatalogItem :=
  ⟨"Chair!", "", "", "", none, Cell.str "", false, "", "", none⟩

/-- A candidate catalog item whose name normalizes to the empty string. -/
def c10Item : CatalogItem :=
  ⟨"--", "", "", "", none, Cell.str "", false, "", "", none⟩

/-! # Theorems -/

/-! ## Builder invariants (claims C2, C3) -/

theorem buildRowItem_name (cm : ColumnMap) (dc : String) (im : ImageMap)
    (sn : String) (r : Row) (ci : CatalogItem)
    (h : buildRowItem cm dc im sn r = some ci) :
    ci.item_name = itemNameOfRow cm r ∧ ci.item_name ≠ "" ∧
      ci.price_available = ci.price.isSome := by
  unfold buildRowItem at h
  split at h
  · exact absurd h (by simp)
  · next hcond =>
      cases h
      refine ⟨rfl, ?_, ?_⟩
      · intro he
        exact hcond (Or.inl he)
      · rfl

/-- Claim C2: every produced CatalogItem has a non-empty item name, rows
whose trimmed item-name cell is empty or "nan" are dropped, and an
unresolved item role yields no items at all. -/
theorem claim_C2 (rows : List Row) (cm : ColumnMap) (dc : String)
    (im : ImageMap) (sn : String) :
    (∀ ci ∈ buildCatalogItems rows cm dc im sn, ci.item_name ≠ "") ∧
    (cm.item = "" → buildCatalogItems rows cm dc im sn = []) ∧
    (∀ r : Row, itemNameOfRow cm r = "" ∨ itemNameOfRow cm r = "nan" →
      buildRowItem cm dc im sn r = none) := by
  refine ⟨?_, ?_, ?_⟩
  · intro ci hci
    unfold buildCatalogItems at hci
    split at hci
    · simp at hci
    · obtain ⟨r, _, hr⟩ := List.mem_filterMap.mp hci
      exact (buildRowItem_name cm dc im sn r ci hr).2.1
  · intro h
    unfold buildCatalogItems
    simp [h]
  · intro r hr
    unfold buildRowItem
    rcases hr with hr | hr
    · rw [if_pos (Or.inl hr)]
    · rw [if_pos (Or.inr (by rw [hr]; rfl))]


theorem claim_C2_witness :
    buildRowItem c4Cm "USD" [] "" [("I", Cell.str "  ")] = none :=
  (claim_C2 [] c4Cm "USD" [] "").2.2 [("I", Cell.str "  ")] (Or.inl (by decide))

/-- Claim C3: price_available of every produced CatalogItem is exactly
the presence of a parsed price. -/
theorem claim_C3 (rows : List Row) (cm : ColumnMap) (dc : String)
    (im : ImageMap) (sn : String) :
    ∀ ci ∈ buildCatalogItems rows cm dc im sn,
      ci.price_available = ci.price.isSome := by
  intro ci hci
  unfold buildCatalogItems at hci
  split at hci
  · simp at hci
  · obtain ⟨r, _, hr⟩ := List.mem_filterMap.mp hci
    exact (buildRowItem_name cm dc im sn r ci hr).2.2

theorem claim_C3_witness :
    (mkBuiltItem c4Cm "USD" [] "" c4Row).price_available =
      (mkBuiltItem c4Cm "USD" [] "" c4Row).price.isSome :=
  claim_C3 [c4Row] c4Cm "USD" [] "" (mkBuiltItem c4Cm "USD" [] "" c4Row) (by decide)

/-! ## Price parsing (claim C4) -/

theorem floatMag_has_digit (l : List Char) (q : ℚ) (h : floatMag l = some q) :
    ∃ c ∈ l, c.isDigit = true := by
  unfold floatMag at h
  cases hdw : l.dropWhile Char.isDigit with
  | nil =>
      rw [hdw] at h
      simp only [] at h
      split at h
      · exact absurd h (by simp)
      · next hip =>
          obtain ⟨c, hc⟩ := List.exists_mem_of_ne_nil _ hip
          exact ⟨c, (List.takeWhile_sublist Char.isDigit).subset hc,
            List.mem_takeWhile_imp hc⟩
  | cons c rest =>
      rw [hdw] at h
      by_cases hc : c = '.'
      · subst hc
        simp only [] at h
        split at h
        · next hcond =>
            rcases hcond.2 with hip | hfp
            · obtain ⟨d, hd⟩ := List.exists_mem_of_ne_nil _ hip
              exact ⟨d, (List.takeWhile_sublist Char.isDigit).subset hd,
                List.mem_takeWhile_imp hd⟩
            · obtain ⟨d, hd⟩ := List.exists_mem_of_ne_nil _ hfp
              refine ⟨d, (List.dropWhile_sublist Char.isDigit).subset ?_,
                List.all_eq_true.mp hcond.1 d hd⟩
              rw [hdw]
              exact List.mem_cons_of_mem _ hd
        · exact absurd h (by simp)
      · exact absurd h (by cases hc2 : c; simp_all [floatMag])

theorem pyFloat_none_of_no_digit (s : String)
    (h : ∀ c ∈ s.toList, c.isDigit = false) : pyFloatOfString s = none := by
  have hmag : ∀ l : List Char, (∀ c ∈ l, c.isDigit = false) → floatMag l = none := by
    intro l hl
    cases hfm : floatMag l with
    | none => rfl
    | some q =>
        obtain ⟨c, hcl, hcd⟩ := floatMag_has_digit l q hfm
        rw [hl c hcl] at hcd
        exact absurd hcd (by simp)
  unfold pyFloatOfString
  split
  · next rest heq =>
      rw [hmag rest (fun c hc => h c (by rw [heq]; exact List.mem_cons_of_mem _ hc))]
      rfl
  · exact hmag _ h

/-- The code parse of the Scenario B price cell, evaluated. -/
theorem price_1250_eval : parsePrice (Cell.str "$1,250.50") = some (2501 / 2) := by
  have h : parsePrice (Cell.str "$1,250.50") =
      some ((digitsVal ['1', '2', '5', '0'] : ℚ) +
        (digitsVal ['5', '0'] : ℚ) / (10 ^ 2 : ℚ)) := rfl
  have h1 : digitsVal ['1', '2', '5', '0'] = 1250 := rfl
  have h2 : digitsVal ['5', '0'] = 50 := rfl
  rw [h, h1, h2]
  norm_num

/-- The code parse of the Scenario A price cell, evaluated. -/
theorem price_450_eval : parsePrice (Cell.str "450.00") = some 450 := by
  have h : parsePrice (Cell.str "450.00") =
      some ((digitsVal ['4', '5', '0'] : ℚ) +
        (digitsVal ['0', '0'] : ℚ) / (10 ^ 2 : ℚ)) := rfl
  have h1 : digitsVal ['4', '5', '0'] = 450 := rfl
  have h2 : digitsVal ['0', '0'] = 0 := rfl
  rw [h, h1, h2]
  norm_num

/-- Claim C4 counterexample: the cell "5-" refutes the claimed stripping
rule.  Stripping all characters except digits, the decimal point and a
leading minus sign leaves "5", which converts to the number 5; the code
instead keeps the trailing minus sign, float() raises, and the price is
null. -/
theorem claim_C4_counterexample :
    parsePrice (Cell.str "5-") = none ∧ specParsePrice (Cell.str "5-") = some 5 :=
  ⟨by decide, by decide⟩

/-- Claim C4 as amended: parsing strips all characters except digits,
decimal points and minus signs wherever they occur and then attempts
numeric conversion; any remainder without a digit yields a null price
(never zero); "$1,250.50" parses to 1250.50 and "N/A" parses to null with
price_available false. -/
theorem claim_C4_amended :
    (∀ s : String, (filterPriceChars s).toList.all (fun c => !c.isDigit) = true →
        parsePrice (Cell.str s) = none) ∧
    parsePrice (Cell.str "$1,250.50") = some (2501 / 2) ∧
    parsePrice (Cell.str "N/A") = none ∧
    (buildCatalogItems [c4Row] c4Cm "USD" [] "").map
      (fun ci => (ci.price, ci.price_available)) = [(none, false)] := by
  refine ⟨?_, price_1250_eval, by decide, by decide⟩
  intro s h
  show (if filterPriceChars s = "" then none
        else pyFloatOfString (filterPriceChars s)) = none
  split
  · rfl
  · refine pyFloat_none_of_no_digit _ (fun c hc => ?_)
    have := List.all_eq_true.mp h c hc
    simpa using this

theorem claim_C4_amended_witness :
    parsePrice (Cell.str "---") = none ∧ parsePrice (Cell.str "N/A") = none :=
  ⟨claim_C4_amended.1 "---" (by decide), claim_C4_amended.2.2.1⟩

/-! ## Scenario A (claim C7) -/

theorem scen_build_eq (dc : String) :
    buildCatalogItems [scenRow] (guessColumnMap scenCols) dc [] "" = [scenItem dc] := by
  have hb : buildCatalogItems [scenRow] (guessColumnMap scenCols) dc [] "" =
      [mkBuiltItem (guessColumnMap scenCols) dc [] "" scenRow] := rfl
  have hprice : rowPriceVal (guessColumnMap scenCols) scenRow = some 450 :=
    price_450_eval
  rw [hb]
  unfold mkBuiltItem scenItem
  simp only [CatalogItem.mk.injEq, List.cons.injEq, and_true]
  refine ⟨rfl, rfl, rfl, rfl, hprice, rfl, by rw [hprice]; rfl, rfl, rfl, rfl⟩

/-- Claim C7 counterexample: on the Scenario A table the classifier
resolves the item role to "Product Code" (the first column matching an
item keyword), so the single built CatalogItem has item_name "A1", not
"Queen Bed Frame". -/
theorem claim_C7_counterexample :
    buildCatalogItems [scenRow] (guessColumnMap scenCols) "USD" [] "" = [scenItem "USD"] ∧
    (scenItem "USD").item_name ≠ "Queen Bed Frame" :=
  ⟨scen_build_eq "USD", by decide⟩

/-- Claim C7 as amended: the Scenario A table yields exactly one
CatalogItem, whose item_name is "A1" (the value of the "Product Code"
column, which wins the item role; "Queen Bed Frame" lands in description),
whose price is 450.00 and whose currency is the caller-supplied default. -/
theorem claim_C7_amended (dc : String) :
    buildCatalogItems [scenRow] (guessColumnMap scenCols) dc [] "" = [scenItem dc] :=
  scen_build_eq dc

theorem claim_C7_amended_witness :
    buildCatalogItems [scenRow] (guessColumnMap scenCols) "EUR" [] "" = [scenItem "EUR"] :=
  claim_C7_amended "EUR"

/-! ## Fuzzy matcher selection (claim C1) -/

theorem matchCatalogItem_def (proc : String) (items : List CatalogItem) :
    matchCatalogItem proc items =
      match (items.foldl (matchStep proc) (none, 0)).1 with
      | some bm =>
          if (11 / 20 : ℚ) ≤ (items.foldl (matchStep proc) (none, 0)).2 then
            some (bm, (items.foldl (matchStep proc) (none, 0)).2)
          else none
      | none => none := rfl

theorem matchStep_snd (proc : String) (acc : Option CatalogItem × ℚ) (it : CatalogItem) :
    (matchStep proc acc it).2 = max acc.2 (similarityScore proc it.item_name) := by
  unfold matchStep
  split
  · next h => exact (max_eq_right (le_of_lt h)).symm
  · next h => exact (max_eq_left (le_of_not_lt h)).symm

theorem matchStep_cases (proc : String) (acc : Option CatalogItem × ℚ) (it : CatalogItem) :
    matchStep proc acc it = acc ∨ (matchStep proc acc it).1 = some it := by
  unfold matchStep
  split
  · exact Or.inr rfl
  · exact Or.inl rfl

theorem matchFold_const (proc : String) (l : List CatalogItem) (acc : Option CatalogItem × ℚ)
    (h : ∀ it ∈ l, similarityScore proc it.item_name ≤ acc.2) :
    l.foldl (matchStep proc) acc = acc := by
  induction l generalizing acc with
  | nil => rfl
  | cons a l ih =>
      rw [List.foldl_cons]
      have ha : matchStep proc acc a = acc := by
        unfold matchStep
        rw [if_neg (not_lt.mpr (h a (List.mem_cons_self a l)))]
      rw [ha]
      exact ih acc (fun it hit => h it (List.mem_cons_of_mem a hit))

theorem matchFold_first_max (proc : String) (pre : List CatalogItem)
    (acc : Option CatalogItem × ℚ) (it : CatalogItem) (post : List CatalogItem)
    (hacc : acc.2 < similarityScore proc it.item_name)
    (hpre : ∀ p ∈ pre, similarityScore proc p.item_name < similarityScore proc it.item_name)
    (hpost : ∀ q ∈ post, similarityScore proc q.item_name ≤ similarityScore proc it.item_name) :
    (pre ++ it :: post).foldl (matchStep proc) acc =
      (some it, similarityScore proc it.item_name) := by
  induction pre generalizing acc with
  | nil =>
      simp only [List.nil_append, List.foldl_cons]
      have hstep : matchStep proc acc it = (some it, similarityScore proc it.item_name) := by
        unfold matchStep
        rw [if_pos hacc]
      rw [hstep]
      exact matchFold_const proc post _ hpost
  | cons p pre ih =>
      rw [List.cons_append, List.foldl_cons]
      refine ih _ ?_ (fun q hq => hpre q (List.mem_cons_of_mem p hq))
      rw [matchStep_snd]
      exact max_lt hacc (hpre p (List.mem_cons_self p pre))

theorem matchStep_snd_cases (proc : String) (acc : Option CatalogItem × ℚ)
    (it : CatalogItem) :
    (matchStep proc acc it).2 = acc.2 ∨
      (matchStep proc acc it).2 = similarityScore proc it.item_name := by
  unfold matchStep
  split
  · exact Or.inr rfl
  · exact Or.inl rfl

theorem matchFold_snd_mem (proc : String) (l : List CatalogItem)
    (acc : Option CatalogItem × ℚ) :
    (l.foldl (matchStep proc) acc).2 = acc.2 ∨
      ∃ it ∈ l, (l.foldl (matchStep proc) acc).2 = similarityScore proc it.item_name := by
  induction l generalizing acc with
  | nil => exact Or.inl rfl
  | cons a l ih =>
      rw [List.foldl_cons]
      rcases ih (matchStep proc acc a) with h | ⟨it, hit, h⟩
      · rcases matchStep_snd_cases proc acc a with h2 | h2
        · exact Or.inl (h.trans h2)
        · exact Or.inr ⟨a, List.mem_cons_self a l, h.trans h2⟩
      · exact Or.inr ⟨it, List.mem_cons_of_mem a hit, h⟩

theorem matchFold_none (proc : String) (l : List CatalogItem)
    (acc : Option CatalogItem × ℚ) (hinv : acc.1 = none → acc.2 = 0) :
    (l.foldl (matchStep proc) acc).1 = none → (l.foldl (matchStep proc) acc).2 = 0 := by
  induction l generalizing acc with
  | nil => exact hinv
  | cons a l ih =>
      rw [List.foldl_cons]
      refine ih _ ?_
      intro h1
      rcases matchStep_cases proc acc a with h | h
      · rw [h] at h1 ⊢
        exact hinv h1
      · rw [h] at h1
        exact absurd h1 (by simp)

theorem matchFold_snd_ge (proc : String) (l : List CatalogItem)
    (acc : Option CatalogItem × ℚ) :
    acc.2 ≤ (l.foldl (matchStep proc) acc).2 := by
  induction l generalizing acc with
  | nil => exact le_refl _
  | cons a l ih =>
      rw [List.foldl_cons]
      refine le_trans ?_ (ih (matchStep proc acc a))
      rw [matchStep_snd]
      exact le_max_left _ _

theorem matchFold_snd_dom (proc : String) (l : List CatalogItem)
    (acc : Option CatalogItem × ℚ) (it : CatalogItem) (h : it ∈ l) :
    similarityScore proc it.item_name ≤ (l.foldl (matchStep proc) acc).2 := by
  induction l generalizing acc with
  | nil => exact absurd h (List.not_mem_nil it)
  | cons a l ih =>
      rw [List.foldl_cons]
      rcases List.mem_cons.mp h with rfl | hmem
      · refine le_trans ?_ (matchFold_snd_ge proc l (matchStep proc acc it))
        rw [matchStep_snd]
        exact le_max_right _ _
      · exact ih _ hmem

/-- Claim C1: the matcher returns no match when every candidate scores
below 0.55, and returns the earliest maximal candidate together with its
score when the maximum reaches 0.55 (ties broken by catalog order). -/
theorem claim_C1 (proc : String) (items : List CatalogItem) :
    ((∀ it ∈ items, similarityScore proc it.item_name < 11 / 20) →
      matchCatalogItem proc items = none) ∧
    (∀ pre it post, items = pre ++ it :: post →
      (11 / 20 : ℚ) ≤ similarityScore proc it.item_name →
      (∀ p ∈ pre, similarityScore proc p.item_name < similarityScore proc it.item_name) →
      (∀ q ∈ post, similarityScore proc q.item_name ≤ similarityScore proc it.item_name) →
      matchCatalogItem proc items = some (it, similarityScore proc it.item_name)) := by
  constructor
  · intro hall
    rw [matchCatalogItem_def]
    cases hfold : (items.foldl (matchStep proc) (none, 0)).1 with
    | none => rfl
    | some bm =>
        have hlt : (items.foldl (matchStep proc) (none, 0)).2 < 11 / 20 := by
          rcases matchFold_snd_mem proc items (none, 0) with h | ⟨it, hit, h⟩
          · rw [h]
            norm_num
          · rw [h]
            exact hall it hit
        exact if_neg (not_le.mpr hlt)
  · intro pre it post heq hge hpre hpost
    subst heq
    have hfold := matchFold_first_max proc pre (none, 0) it post
      (lt_of_lt_of_le (by norm_num) hge) hpre hpost
    rw [matchCatalogItem_def, hfold]
    exact if_pos hge

theorem simScore_w1 : similarityScore "chair" w1Item.item_name = 1 := by
  have h : similarityScore "chair" w1Item.item_name = calcRatioQ 5 10 := rfl
  rw [h]
  norm_num [calcRatioQ]

theorem claim_C1_witness :
    matchCatalogItem "chair" [w1Item] =
      some (w1Item, similarityScore "chair" w1Item.item_name) := by
  refine (claim_C1 "chair" [w1Item]).2 [] w1Item [] rfl ?_ (by simp) (by simp)
  rw [simScore_w1]
  norm_num

/-! ## Ratio bounds and the empty-normalization match (claim C10) -/

theorem commonLead_le_left : ∀ x y : List Char, commonLead x y ≤ x.length := by
  intro x
  induction x with
  | nil => intro y; cases y <;> simp [commonLead]
  | cons c cs ih =>
      intro y
      cases y with
      | nil => simp [commonLead]
      | cons d ds =>
          unfold commonLead
          split
          · simpa using Nat.succ_le_succ (ih ds)
          · simp

theorem commonLead_le_right : ∀ x y : List Char, commonLead x y ≤ y.length := by
  intro x
  induction x with
  | nil => intro y; cases y <;> simp [commonLead]
  | cons c cs ih =>
      intro y
      cases y with
      | nil => simp [commonLead]
      | cons d ds =>
          unfold commonLead
          split
          · simpa using Nat.succ_le_succ (ih ds)
          · simp

theorem choose_mem (l : List (Nat × Nat × Nat)) (init : Nat × Nat × Nat) :
    l.foldl (fun best c => if best.2.2 < c.2.2 then c else best) init = init ∨
      l.foldl (fun best c => if best.2.2 < c.2.2 then c else best) init ∈ l := by
  induction l generalizing init with
  | nil => exact Or.inl rfl
  | cons a l ih =>
      rw [List.foldl_cons]
      rcases ih (if init.2.2 < a.2.2 then a else init) with h | h
      · rw [h]
        split
        · exact Or.inr (List.mem_cons_self a l)
        · exact Or.inl rfl
      · exact Or.inr (List.mem_cons_of_mem a h)

theorem lmCandidates_spec (a b : List Char) (c : Nat × Nat × Nat)
    (h : c ∈ lmCandidates a b) :
    c.2.2 = commonLead (a.drop c.1) (b.drop c.2.1) ∧
      c.1 < a.length ∧ c.2.1 < b.length := by
  unfold lmCandidates at h
  obtain ⟨i, hi, hc⟩ := List.mem_flatMap.mp h
  obtain ⟨j, hj, hcc⟩ := List.mem_map.mp hc
  cases hcc
  exact ⟨rfl, List.mem_range.mp hi, List.mem_range.mp hj⟩

theorem longestMatch_spec (a b : List Char)
    (h : (longestMatch a b).2.2 ≠ 0) :
    (longestMatch a b).2.2 =
        commonLead (a.drop (longestMatch a b).1) (b.drop (longestMatch a b).2.1) ∧
      (longestMatch a b).1 < a.length ∧ (longestMatch a b).2.1 < b.length := by
  rcases choose_mem (lmCandidates a b) (0, 0, 0) with h0 | hmem
  · unfold longestMatch at h
    rw [h0] at h
    exact absurd rfl h
  · exact lmCandidates_spec a b _ hmem

theorem matchingTotal_le (fuel : Nat) : ∀ a b : List Char,
    matchingTotal fuel a b ≤ a.length ∧ matchingTotal fuel a b ≤ b.length := by
  induction fuel with
  | zero => intro a b; exact ⟨Nat.zero_le _, Nat.zero_le _⟩
  | succ fuel ih =>
      intro a b
      by_cases hk : (longestMatch a b).2.2 = 0
      · unfold matchingTotal
        rw [if_pos hk]
        exact ⟨Nat.zero_le _, Nat.zero_le _⟩
      · obtain ⟨hkeq, hia, hjb⟩ := longestMatch_spec a b hk
        have hka : (longestMatch a b).2.2 ≤ a.length - (longestMatch a b).1 := by
          rw [hkeq]
          have := commonLead_le_left (a.drop (longestMatch a b).1)
            (b.drop (longestMatch a b).2.1)
          simpa using this
        have hkb : (longestMatch a b).2.2 ≤ b.length - (longestMatch a b).2.1 := by
          rw [hkeq]
          have := commonLead_le_right (a.drop (longestMatch a b).1)
            (b.drop (longestMatch a b).2.1)
          simpa using this
        have ih1 := ih (a.take (longestMatch a b).1) (b.take (longestMatch a b).2.1)
        have ih2 := ih (a.drop ((longestMatch a b).1 + (longestMatch a b).2.2))
          (b.drop ((longestMatch a b).2.1 + (longestMatch a b).2.2))
        simp only [List.length_take, List.length_drop] at ih1 ih2
        unfold matchingTotal
        rw [if_neg hk]
        constructor
        · have := ih1.1
          have := ih2.1
          omega
        · have := ih1.2
          have := ih2.2
          omega

theorem seqRatio_le_one (a b : String) : seqRatioQ a b ≤ 1 := by
  unfold seqRatioQ calcRatioQ
  split
  · next hne =>
      have hM := matchingTotal_le (a.toList.length + 1) a.toList b.toList
      rw [div_le_one (by exact_mod_cast Nat.pos_of_ne_zero hne)]
      have h2 : 2 * matchingTotal (a.toList.length + 1) a.toList b.toList ≤
          a.toList.length + b.toList.length := by
        have := hM.1
        have := hM.2
        omega
      exact_mod_cast h2
  · exact le_refl 1

theorem similarity_le_one (a b : String) : similarityScore a b ≤ 1 :=
  seqRatio_le_one _ _

theorem similarity_of_norm_empty (a b : String)
    (h1 : normalizeText a = "") (h2 : normalizeText b = "") :
    similarityScore a b = 1 := by
  unfold similarityScore
  rw [h1, h2]
  rfl

/-- Claim C10: when both the procurement name and a candidate name
normalize to the empty string, the similarity is 1.0 and the matcher
surfaces a full-confidence match instead of reporting no match. -/
theorem claim_C10 (a : String) (items : List CatalogItem) (it : CatalogItem)
    (hmem : it ∈ items) (h1 : normalizeText a = "")
    (h2 : normalizeText it.item_name = "") :
    similarityScore a it.item_name = 1 ∧
      ∃ bm, matchCatalogItem a items = some (bm, 1) := by
  have hs : similarityScore a it.item_name = 1 := similarity_of_norm_empty _ _ h1 h2
  refine ⟨hs, ?_⟩
  have hge : (1 : ℚ) ≤ (items.foldl (matchStep a) (none, 0)).2 := by
    rw [← hs]
    exact matchFold_snd_dom a items (none, 0) it hmem
  have hle : (items.foldl (matchStep a) (none, 0)).2 ≤ 1 := by
    rcases matchFold_snd_mem a items (none, 0) with h | ⟨x, hx, h⟩
    · rw [h]
      norm_num
    · rw [h]
      exact similarity_le_one _ _
  have heq : (items.foldl (matchStep a) (none, 0)).2 = 1 := le_antisymm hle hge
  have hne : (items.foldl (matchStep a) (none, 0)).1 ≠ none := by
    intro hnone
    have h0 := matchFold_none a items (none, 0) (fun _ => rfl) hnone
    rw [heq] at h0
    norm_num at h0
  obtain ⟨bm, hbm⟩ := Option.ne_none_iff_exists'.mp hne
  refine ⟨bm, ?_⟩
  rw [matchCatalogItem_def]
  simp only [hbm, heq]
  rw [if_pos (by norm_num)]

theorem claim_C10_witness :
    similarityScore "##" c10Item.item_name = 1 ∧
      ∃ bm, matchCatalogItem "##" [c10Item] = some (bm, 1) :=
  claim_C10 "##" [c10Item] c10Item (List.mem_cons_self c10Item [])
    (by decide) (by decide)

/-! ## Header detection (claim C5) -/

theorem find_first_qualifying (pre : List (Int × List Cell)) (r : Int × List Cell)
    (post : List (Int × List Cell)) (hq : rowQualifies r.2 = true)
    (hpre : ∀ p ∈ pre, rowQualifies p.2 = false) :
    (pre ++ r :: post).find? (fun x => rowQualifies x.2) = some r := by
  induction pre with
  | nil =>
      rw [List.nil_append]
      exact List.find?_cons_of_pos _ hq
  | cons a pre ih =>
      rw [List.cons_append, List.find?_cons_of_neg]
      · exact ih (fun p hp => hpre p (List.mem_cons_of_mem a hp))
      · rw [hpre a (List.mem_cons_self a pre)]
        simp

/-- Claim C5 counterexample: in hdrExampleDf only the second row (label 1)
has at least 3 keyword-bearing non-empty cells, yet the scan selects the
first row (label 0), whose three non-empty cells qualify it under the
weaker code test (a keyword anywhere in the joined text). -/
theorem claim_C5_counterexample :
    specHeaderCond [Cell.str "item", Cell.str "price", Cell.str "unit"] = true ∧
    specHeaderCond [Cell.str "this item x", Cell.str "b", Cell.str "c"] = false ∧
    detectHeaderRow hdrExampleDf = some 0 ∧
    detectHeaderRow hdrExampleDf ≠ some 1 :=
  ⟨by decide, by decide, by decide, by decide⟩

/-- Claim C5 as amended: the scan selects the first row having at least 3
non-empty, non-"nan" cells whose joined lowercased text contains one of
the fixed keywords; rows with 3 or more keyword-bearing cells qualify only
through this weaker per-row test, so an earlier row passing it wins. -/
theorem claim_C5_amended (df : DataFrame) (pre : List (Int × List Cell))
    (r : Int × List Cell) (post : List (Int × List Cell))
    (heq : df.rows = pre ++ r :: post) (hq : rowQualifies r.2 = true)
    (hpre : ∀ p ∈ pre, rowQualifies p.2 = false) :
    detectHeaderRow df = some r.1 := by
  unfold detectHeaderRow
  rw [heq, find_first_qualifying pre r post hq hpre]
  rfl

theorem claim_C5_amended_witness : detectHeaderRow hdrExampleDf = some 0 :=
  claim_C5_amended hdrExampleDf []
    (0, [Cell.str "this item x", Cell.str "b", Cell.str "c"])
    [(1, [Cell.str "item", Cell.str "price", Cell.str "unit"])]
    rfl (by decide) (by simp)

/-! ## Trivially small tables (claim C9) -/

theorem range_map_getD {α : Type} (l : List α) (d : α) :
    (List.range l.length).map (fun j => l.getD j d) = l := by
  induction l with
  | nil => rfl
  | cons a l ih =>
      rw [List.length_cons, List.range_succ_eq_map, List.map_cons, List.map_map]
      have hcomp : ((fun j => (a :: l).getD j d) ∘ Nat.succ) = fun j => l.getD j d := by
        funext j
        simp
      rw [hcomp, ih]
      simp

/-- Claim C9 counterexample: a one-column table whose single column is
entirely empty is not passed through unchanged; normalization drops the
empty column. -/
theorem claim_C9_counterexample :
    prepareDataframe c9BadDf ≠ c9BadDf ∧ c9BadDf.columns.length < 2 :=
  ⟨by decide, by decide⟩

/-- Claim C9 as amended: a table with fewer than 2 columns never receives
header promotion, row dropping or source_row stamping (the header scan
needs 3 non-empty cells in a row); normalization only drops fully-empty
columns, so such a table with no fully-empty column is returned
unchanged. -/
theorem claim_C9_amended (df : DataFrame) (hal : Aligned df)
    (hc : df.columns.length < 2) :
    prepareDataframe df = dropEmptyCols df ∧
    ((∀ j < df.columns.length, ∃ r ∈ df.rows, cellIsNA (r.2.getD j Cell.nan) = false) →
      dropEmptyCols df = df) := by
  constructor
  · unfold prepareDataframe
    split
    · rfl
    · have hdet : detectHeaderRow df = none := by
        unfold detectHeaderRow
        rw [Option.map_eq_none', List.find?_eq_none]
        intro r hr
        have hlen : (rowValues r.2).length ≤ r.2.length := by
          unfold rowValues
          exact List.length_filterMap_le _ _
        have hral := hal r hr
        have h3 : ¬(3 ≤ (rowValues r.2).length) := by omega
        simp [rowQualifies, h3]
      rw [hdet]
  · intro hfull
    have hk : keptIdx df = List.range df.columns.length := by
      unfold keptIdx
      rw [List.filter_eq_self]
      intro j hj
      obtain ⟨r, hr, hna⟩ := hfull j (List.mem_range.mp hj)
      exact List.any_eq_true.mpr ⟨r, hr, by simp only [hna, Bool.not_false]⟩
    unfold dropEmptyCols
    rw [hk]
    have hrows : df.rows.map
        (fun r => (r.1, (List.range df.columns.length).map (fun j => r.2.getD j Cell.nan)))
        = df.rows := by
      have hcongr : ∀ r ∈ df.rows,
          (r.1, (List.range df.columns.length).map (fun j => r.2.getD j Cell.nan)) = r := by
        intro r hr
        have hral := hal r hr
        rw [← hral, range_map_getD r.2 Cell.nan]
      calc df.rows.map
            (fun r => (r.1, (List.range df.columns.length).map (fun j => r.2.getD j Cell.nan)))
          = df.rows.map id := List.map_congr_left hcongr
        _ = df.rows := List.map_id df.rows
    rw [hrows, range_map_getD df.columns ""]

theorem claim_C9_amended_witness : prepareDataframe c9GoodDf = c9GoodDf := by
  have h := claim_C9_amended c9GoodDf (by decide) (by decide)
  exact h.1.trans (h.2 (by decide))

/-! ## Source-row stamping (claim C8) -/

theorem stampSourceRow_pos (d : DataFrame) (hmem : "_source_row" ∈ d.columns) :
    stampSourceRow d =
      ⟨d.columns,
       d.rows.map (fun r =>
         (r.1, (d.columns.zip r.2).map
           (fun p => if p.1 = "_source_row" then Cell.int (r.1 + 1) else p.2)))⟩ := by
  unfold stampSourceRow
  rw [if_pos hmem]

theorem stampSourceRow_neg (d : DataFrame) (hmem : "_source_row" ∉ d.columns) :
    stampSourceRow d =
      ⟨d.columns ++ ["_source_row"],
       d.rows.map (fun r => (r.1, r.2 ++ [Cell.int (r.1 + 1)]))⟩ := by
  unfold stampSourceRow
  rw [if_neg hmem]

theorem dropEmptyCols_aligned (d : DataFrame) :
    ∀ r ∈ (dropEmptyCols d).rows, r.2.length = (dropEmptyCols d).columns.length := by
  intro r hr
  unfold dropEmptyCols at hr ⊢
  obtain ⟨r0, _, heq⟩ := List.mem_map.mp hr
  rw [← heq]
  simp

theorem mem_dropEmptyCols_label (d : DataFrame) (r : Int × List Cell)
    (hr : r ∈ (dropEmptyCols d).rows) : ∃ r0 ∈ d.rows, r0.1 = r.1 := by
  unfold dropEmptyCols at hr
  obtain ⟨r0, hr0, heq⟩ := List.mem_map.mp hr
  exact ⟨r0, hr0, by rw [← heq]⟩

theorem mem_dropEmptyRows (d : DataFrame) (r : Int × List Cell)
    (hr : r ∈ (dropEmptyRows d).rows) : r ∈ d.rows := by
  unfold dropEmptyRows at hr
  exact List.mem_of_mem_filter hr

theorem mem_stamp_label (d : DataFrame) (r : Int × List Cell)
    (hr : r ∈ (stampSourceRow d).rows) : ∃ r0 ∈ d.rows, r0.1 = r.1 := by
  by_cases hmem : "_source_row" ∈ d.columns
  · rw [stampSourceRow_pos d hmem] at hr
    obtain ⟨r0, hr0, heq⟩ := List.mem_map.mp hr
    exact ⟨r0, hr0, by rw [← heq]⟩
  · rw [stampSourceRow_neg d hmem] at hr
    obtain ⟨r0, hr0, heq⟩ := List.mem_map.mp hr
    exact ⟨r0, hr0, by rw [← heq]⟩

theorem rowGet_append_stamp (cols : List String) (cells : List Cell) (v : Cell)
    (hlen : cells.length = cols.length) (hnot : "_source_row" ∉ cols) :
    rowGet ((cols ++ ["_source_row"]).zip (cells ++ [v])) "_source_row" Cell.null = v := by
  induction cols generalizing cells with
  | nil =>
      cases cells with
      | nil => rfl
      | cons x cells => simp at hlen
  | cons c cols ih =>
      cases cells with
      | nil => simp at hlen
      | cons x cells =>
          have hc : c ≠ "_source_row" := by
            intro h
            exact hnot (h ▸ List.mem_cons_self c cols)
          unfold rowGet
          rw [List.cons_append, List.cons_append, List.zip_cons_cons,
            List.find?_cons_of_neg _ (by simpa using hc)]
          have := ih cells (by simpa using hlen)
            (fun h => hnot (List.mem_cons_of_mem c h))
          unfold rowGet at this
          exact this

theorem rowGet_overwrite_stamp (cols : List String) (cells : List Cell) (v : Cell)
    (hlen : cells.length = cols.length) (hmem : "_source_row" ∈ cols) :
    rowGet (cols.zip ((cols.zip cells).map
        (fun p => if p.1 = "_source_row" then v else p.2)))
      "_source_row" Cell.null = v := by
  induction cols generalizing cells with
  | nil => exact absurd hmem (List.not_mem_nil _)
  | cons c cols ih =>
      cases cells with
      | nil => simp at hlen
      | cons x cells =>
          simp only [List.zip_cons_cons, List.map_cons]
          by_cases hc : c = "_source_row"
          · unfold rowGet
            rw [List.find?_cons_of_pos _ (by simpa using hc)]
            simp [hc]
          · unfold rowGet
            rw [List.find?_cons_of_neg _ (by simpa using hc)]
            have := ih cells (by simpa using hlen)
              (by rcases List.mem_cons.mp hmem with h | h
                  · exact absurd h.symm hc
                  · exact h)
            unfold rowGet at this
            exact this

theorem stamp_lookup (d : DataFrame)
    (hal : ∀ r ∈ d.rows, r.2.length = d.columns.length) :
    ∀ r ∈ (stampSourceRow d).rows,
      rowGet ((stampSourceRow d).columns.zip r.2) "_source_row" Cell.null
        = Cell.int (r.1 + 1) := by
  intro r hr
  by_cases hmem : "_source_row" ∈ d.columns
  · rw [stampSourceRow_pos d hmem] at hr ⊢
    obtain ⟨r0, hr0, heq⟩ := List.mem_map.mp hr
    rw [← heq]
    exact rowGet_overwrite_stamp d.columns r0.2 (Cell.int (r0.1 + 1))
      (hal r0 hr0) hmem
  · rw [stampSourceRow_neg d hmem] at hr ⊢
    obtain ⟨r0, hr0, heq⟩ := List.mem_map.mp hr
    rw [← heq]
    exact rowGet_append_stamp d.columns r0.2 (Cell.int (r0.1 + 1))
      (hal r0 hr0) hmem

theorem getD_fst (l : List (Int × List Cell)) (p : Nat) (hp : p < l.length) :
    (l.map Prod.fst).getD p 0 = (l.getD p ((0 : Int), ([] : List Cell))).1 := by
  induction l generalizing p with
  | nil => simp at hp
  | cons a l ih =>
      cases p with
      | zero => simp
      | succ p =>
          simp only [List.map_cons, List.getD_cons_succ]
          exact ih p (by simpa using Nat.lt_of_succ_lt_succ hp)

theorem range_getD (n p : Nat) (hp : p < n) :
    ((List.range n).map Int.ofNat).getD p 0 = Int.ofNat p := by
  rw [List.getD_eq_getElem?_getD, List.getElem?_map, List.getElem?_range hp]
  rfl

/-- Claim C8: when an anonymous-labelled table gets its header promoted,
every surviving row is stamped (in its _source_row column) with
label + 1, and under the pandas RangeIndex carried by the loaders the
label is exactly the 0-based position of the originating row in the
original pre-normalization table, so the stamp is that 1-based original
position and not a compacted post-filter index. -/
theorem claim_C8 (df : DataFrame) (hR : RangeIndexed df)
    (hU : df.columns.any (fun c => strStarts c "Unnamed:") = true)
    (hd : Int) (hdet : detectHeaderRow df = some hd) :
    ∀ r ∈ (prepareDataframe df).rows,
      rowGet ((prepareDataframe df).columns.zip r.2) "_source_row" Cell.null
          = Cell.int (r.1 + 1) ∧
      ∃ p : Nat, p < df.rows.length ∧ r.1 = Int.ofNat p ∧
        (df.rows.getD p ((0 : Int), ([] : List Cell))).1 = Int.ofNat p := by
  have hprep : prepareDataframe df = stampSourceRow (dropEmptyRows (dropEmptyCols
      ⟨((df.rows.getD hd.toNat ((0 : Int), ([] : List Cell))).2).map cellToStr,
       df.rows.drop (hd.toNat + 1)⟩)) := by
    unfold prepareDataframe
    rw [if_neg (by simp [hU]), hdet]
  rw [hprep]
  intro r hr
  constructor
  · refine stamp_lookup _ ?_ r hr
    intro r3 hr3
    have h3 : r3 ∈ (dropEmptyCols
        ⟨((df.rows.getD hd.toNat ((0 : Int), ([] : List Cell))).2).map cellToStr,
         df.rows.drop (hd.toNat + 1)⟩).rows := mem_dropEmptyRows _ _ hr3
    have halc := dropEmptyCols_aligned _ r3 h3
    simpa [dropEmptyRows] using halc
  · obtain ⟨r3, hr3, hlab⟩ := mem_stamp_label _ r hr
    have h3 := mem_dropEmptyRows _ _ hr3
    obtain ⟨r0, hr0, hlab0⟩ := mem_dropEmptyCols_label _ r3 h3
    have hr0d : r0 ∈ df.rows := List.mem_of_mem_drop hr0
    have hfst : r0.1 ∈ df.rows.map Prod.fst := List.mem_map_of_mem Prod.fst hr0d
    rw [hR] at hfst
    obtain ⟨p, hp, hpe⟩ := List.mem_map.mp hfst
    have hplen : p < df.rows.length := List.mem_range.mp hp
    refine ⟨p, hplen, ?_, ?_⟩
    · rw [← hlab, ← hlab0]
      exact hpe.symm
    · rw [← getD_fst df.rows p hplen, hR]
      exact range_getD df.rows.length p hplen

theorem claim_C8_witness :
    rowGet ((prepareDataframe c8Df).columns.zip c8OutCells) "_source_row" Cell.null
        = Cell.int (1 + 1) ∧
    ∃ p : Nat, p < c8Df.rows.length ∧ (1 : Int) = Int.ofNat p ∧
      (c8Df.rows.getD p ((0 : Int), ([] : List Cell))).1 = Int.ofNat p :=
  claim_C8 c8Df (by decide) (by decide) 0 (by decide)
    ((1 : Int), c8OutCells) (by decide)

/-! ## Column role classifier (claim C6) -/

theorem bool_ne_true (b : Bool) (h : ¬b = true) : b = false := by
  cases b
  · rfl
  · exact absurd rfl h

theorem roleMatches_empty (ρ : Role) : roleMatches ρ "" = false := by
  cases ρ <;> decide

theorem roleMatches_ne_empty (ρ : Role) (c : String)
    (h : roleMatches ρ c = true) : c ≠ "" := by
  intro he
  subst he
  rw [roleMatches_empty] at h
  exact absurd h (by simp)

theorem getRole_setRole_same (m : ColumnMap) (ρ : Role) (c : String) :
    getRole (setRole m ρ c) ρ = c := by
  cases ρ <;> rfl

theorem getRole_setRole_other (m : ColumnMap) (σ : Role) (c : String) (ρ : Role)
    (h : ρ ≠ σ) : getRole (setRole m σ c) ρ = getRole m ρ := by
  cases ρ <;> cases σ <;> first | exact absurd rfl h | rfl

theorem rolePriority_inj (τ ρ : Role) (h : rolePriority τ = rolePriority ρ) : τ = ρ := by
  cases τ <;> cases ρ <;> revert h <;> decide

set_option maxHeartbeats 1600000 in
theorem guessStep_eq_fired (m : ColumnMap) (col : String) :
    guessStep m col =
      match firedRole m col with
      | none => m
      | some ρ => setRole m ρ col := by
  unfold guessStep firedRole
  split_ifs <;> rfl

set_option maxHeartbeats 1600000 in
theorem firedRole_some (m : ColumnMap) (col : String) (ρ : Role)
    (h : firedRole m col = some ρ) :
    getRole m ρ = "" ∧ anyKeyIn (roleKeys ρ) (normalizeText col) = true ∧
      ¬strStarts col "_" = true := by
  unfold firedRole at h
  split_ifs at h with h0 h1 h2 h3 h4 h5 h6 h7
  · have he := Option.some.inj h
    subst he
    exact ⟨h1.1, h1.2, h0⟩
  · have he := Option.some.inj h
    subst he
    exact ⟨h2.1, h2.2, h0⟩
  · have he := Option.some.inj h
    subst he
    exact ⟨h3.1, h3.2, h0⟩
  · have he := Option.some.inj h
    subst he
    exact ⟨h4.1, h4.2, h0⟩
  · have he := Option.some.inj h
    subst he
    exact ⟨h5.1, h5.2, h0⟩
  · have he := Option.some.inj h
    subst he
    exact ⟨h6.1, h6.2, h0⟩
  · have he := Option.some.inj h
    subst he
    exact ⟨h7.1, h7.2, h0⟩

set_option maxHeartbeats 1600000 in
theorem firedRole_min (m : ColumnMap) (col : String) (τ : Role)
    (h : firedRole m col = some τ) :
    ∀ ρ, rolePriority ρ < rolePriority τ →
      ¬(getRole m ρ = "" ∧ anyKeyIn (roleKeys ρ) (normalizeText col) = true) := by
  unfold firedRole at h
  split_ifs at h with h0 h1 h2 h3 h4 h5 h6 h7
  · have he := Option.some.inj h
    subst he
    intro ρ hρ hcon
    cases ρ <;> exact absurd hρ (by decide)
  · have he := Option.some.inj h
    subst he
    intro ρ hρ hcon
    cases ρ
    · exact h1 hcon
    all_goals exact absurd hρ (by decide)
  · have he := Option.some.inj h
    subst he
    intro ρ hρ hcon
    cases ρ
    · exact h1 hcon
    · exact h2 hcon
    all_goals exact absurd hρ (by decide)
  · have he := Option.some.inj h
    subst he
    intro ρ hρ hcon
    cases ρ
    · exact h1 hcon
    · exact h2 hcon
    · exact h3 hcon
    all_goals exact absurd hρ (by decide)
  · have he := Option.some.inj h
    subst he
    intro ρ hρ hcon
    cases ρ
    · exact h1 hcon
    · exact h2 hcon
    · exact h3 hcon
    · exact h4 hcon
    all_goals exact absurd hρ (by decide)
  · have he := Option.some.inj h
    subst he
    intro ρ hρ hcon
    cases ρ
    · exact h1 hcon
    · exact h2 hcon
    · exact h3 hcon
    · exact h4 hcon
    · exact h5 hcon
    all_goals exact absurd hρ (by decide)
  · have he := Option.some.inj h
    subst he
    intro ρ hρ hcon
    cases ρ
    · exact h1 hcon
    · exact h2 hcon
    · exact h3 hcon
    · exact h4 hcon
    · exact h5 hcon
    · exact h6 hcon
    all_goals exact absurd hρ (by decide)

set_option maxHeartbeats 1600000 in
theorem firedRole_none_no (m : ColumnMap) (col : String)
    (h : firedRole m col = none) (ρ : Role) :
    ¬(¬strStarts col "_" = true ∧ getRole m ρ = "" ∧
        anyKeyIn (roleKeys ρ) (normalizeText col) = true) := by
  unfold firedRole at h
  split_ifs at h with h0 h1 h2 h3 h4 h5 h6 h7
  · intro hcon
    exact hcon.1 h0
  · intro hcon
    cases ρ
    · exact h1 ⟨hcon.2.1, hcon.2.2⟩
    · exact h2 ⟨hcon.2.1, hcon.2.2⟩
    · exact h3 ⟨hcon.2.1, hcon.2.2⟩
    · exact h4 ⟨hcon.2.1, hcon.2.2⟩
    · exact h5 ⟨hcon.2.1, hcon.2.2⟩
    · exact h6 ⟨hcon.2.1, hcon.2.2⟩
    · exact h7 ⟨hcon.2.1, hcon.2.2⟩

theorem guessStep_preserve (m : ColumnMap) (col : String) (ρ : Role)
    (h : getRole m ρ ≠ "") : getRole (guessStep m col) ρ = getRole m ρ := by
  rw [guessStep_eq_fired]
  cases hf : firedRole m col with
  | none => rfl
  | some τ =>
      by_cases hτρ : τ = ρ
      · subst hτρ
        exact absurd (firedRole_some m col τ hf).1 h
      · exact getRole_setRole_other m τ col ρ (fun he => hτρ he.symm)

theorem guessStep_newOrOld (m : ColumnMap) (col : String) (ρ : Role) :
    getRole (guessStep m col) ρ = getRole m ρ ∨
      (getRole m ρ = "" ∧ getRole (guessStep m col) ρ = col ∧
        anyKeyIn (roleKeys ρ) (normalizeText col) = true ∧
        ¬strStarts col "_" = true) := by
  rw [guessStep_eq_fired]
  cases hf : firedRole m col with
  | none => exact Or.inl rfl
  | some τ =>
      by_cases hτρ : τ = ρ
      · subst hτρ
        obtain ⟨h1, h2, h3⟩ := firedRole_some m col τ hf
        exact Or.inr ⟨h1, getRole_setRole_same m τ col, h2, h3⟩
      · exact Or.inl (getRole_setRole_other m τ col ρ (fun he => hτρ he.symm))

theorem guessStep_mustFire (m : ColumnMap) (col : String) (ρ : Role)
    (hρ : getRole m ρ = "") (hm : anyKeyIn (roleKeys ρ) (normalizeText col) = true)
    (hs : ¬strStarts col "_" = true) :
    getRole (guessStep m col) ρ = col ∨
      ∃ σ, rolePriority σ < rolePriority ρ ∧ getRole m σ = "" ∧
        anyKeyIn (roleKeys σ) (normalizeText col) = true ∧
        getRole (guessStep m col) σ = col := by
  rw [guessStep_eq_fired]
  cases hf : firedRole m col with
  | none => exact absurd ⟨hs, hρ, hm⟩ (firedRole_none_no m col hf ρ)
  | some τ =>
      by_cases hτρ : τ = ρ
      · subst hτρ
        exact Or.inl (getRole_setRole_same m τ col)
      · have hnlt : ¬(rolePriority ρ < rolePriority τ) := fun hlt =>
          firedRole_min m col τ hf ρ hlt ⟨hρ, hm⟩
        have hne2 : rolePriority τ ≠ rolePriority ρ := fun he =>
          hτρ (rolePriority_inj τ ρ he)
        have hlt : rolePriority τ < rolePriority ρ := by omega
        obtain ⟨hτ1, hτ2, _⟩ := firedRole_some m col τ hf
        exact Or.inr ⟨τ, hlt, hτ1, hτ2, getRole_setRole_same m τ col⟩

theorem guessStep_two (m : ColumnMap) (col : String) (ρ σ : Role) (hne : ρ ≠ σ) :
    getRole (guessStep m col) ρ = getRole m ρ ∨
      getRole (guessStep m col) σ = getRole m σ := by
  rw [guessStep_eq_fired]
  cases hf : firedRole m col with
  | none => exact Or.inl rfl
  | some τ =>
      by_cases hτρ : τ = ρ
      · subst hτρ
        exact Or.inr (getRole_setRole_other m τ col σ (fun he => hne he.symm))
      · exact Or.inl (getRole_setRole_other m τ col ρ (fun he => hτρ he.symm))
theorem guessFold_preserve (cols : List String) (m : ColumnMap) (ρ : Role)
    (h : getRole m ρ ≠ "") :
    getRole (cols.foldl guessStep m) ρ = getRole m ρ := by
  induction cols generalizing m with
  | nil => rfl
  | cons c cols ih =>
      rw [List.foldl_cons]
      have hp := guessStep_preserve m c ρ h
      rw [ih (guessStep m c) (by rw [hp]; exact h), hp]

theorem guessFold_assigned (cols : List String) (m : ColumnMap) (ρ : Role) :
    getRole (cols.foldl guessStep m) ρ = getRole m ρ ∨
      (getRole (cols.foldl guessStep m) ρ ∈ cols ∧
        roleMatches ρ (getRole (cols.foldl guessStep m) ρ) = true ∧
        strStarts (getRole (cols.foldl guessStep m) ρ) "_" = false) := by
  induction cols generalizing m with
  | nil => exact Or.inl rfl
  | cons c cols ih =>
      rw [List.foldl_cons]
      rcases ih (guessStep m c) with h | ⟨h1, h2, h3⟩
      · rcases guessStep_newOrOld m c ρ with h0 | ⟨_, hb, hc, hd⟩
        · exact Or.inl (h.trans h0)
        · refine Or.inr ⟨?_, ?_, ?_⟩
          · rw [h, hb]
            exact List.mem_cons_self c cols
          · rw [h, hb]
            exact hc
          · rw [h, hb]
            exact bool_ne_true _ hd
      · exact Or.inr ⟨List.mem_cons_of_mem c h1, h2, h3⟩

theorem guessFold_B2 : ∀ (cols : List String) (m : ColumnMap) (ρ : Role) (c : String),
    eligMatch ρ c = true →
    getRole (cols.foldl guessStep m) ρ = "" →
    c ∈ cols →
    ∃ σ, rolePriority σ < rolePriority ρ ∧
      getRole (cols.foldl guessStep m) σ = c := by
  intro cols
  induction cols with
  | nil =>
      intro m ρ c _ _ hc
      exact absurd hc (List.not_mem_nil c)
  | cons c0 cols ih =>
      intro m ρ c helig hend hc
      obtain ⟨hnb, hrm⟩ := Bool.and_eq_true _ _ |>.mp helig
      have hns : ¬strStarts c "_" = true := by
        cases hsv : strStarts c "_"
        · simp
        · rw [hsv] at hnb
          exact absurd hnb (by simp)
      have hcne : c ≠ "" := roleMatches_ne_empty ρ c hrm
      rw [List.foldl_cons] at hend ⊢
      rcases List.mem_cons.mp hc with rfl | hmem
      · have hstep_unres : getRole (guessStep m c) ρ = "" := by
          by_contra hne
          rw [guessFold_preserve cols _ ρ hne] at hend
          exact hne hend
        have hm_unres : getRole m ρ = "" := by
          rcases guessStep_newOrOld m c ρ with h0 | ⟨_, hb, _, _⟩
          · rw [← h0]
            exact hstep_unres
          · rw [hb] at hstep_unres
            exact absurd hstep_unres hcne
        rcases guessStep_mustFire m c ρ hm_unres hrm hns with h1 | ⟨σ, hσp, _, _, hσc⟩
        · rw [h1] at hstep_unres
          exact absurd hstep_unres hcne
        · refine ⟨σ, hσp, ?_⟩
          rw [guessFold_preserve cols _ σ (by rw [hσc]; exact hcne)]
          exact hσc
      · exact ih (guessStep m c0) ρ c helig hend hmem

theorem guessFold_distinct (cols : List String) (m : ColumnMap)
    (hnd : cols.Nodup)
    (hout : ∀ ρ, getRole m ρ = "" ∨ getRole m ρ ∉ cols)
    (hdis : ∀ ρ σ, ρ ≠ σ → getRole m ρ ≠ "" → getRole m σ ≠ "" →
      getRole m ρ ≠ getRole m σ) :
    ∀ ρ σ, ρ ≠ σ → getRole (cols.foldl guessStep m) ρ ≠ "" →
      getRole (cols.foldl guessStep m) σ ≠ "" →
      getRole (cols.foldl guessStep m) ρ ≠ getRole (cols.foldl guessStep m) σ := by
  induction cols generalizing m with
  | nil => exact hdis
  | cons c cols ih =>
      simp only [List.foldl_cons]
      have hcnotmem : c ∉ cols := (List.nodup_cons.mp hnd).1
      refine ih (guessStep m c) (List.Nodup.of_cons hnd) ?_ ?_
      · intro ρ
        rcases guessStep_newOrOld m c ρ with h0 | ⟨_, hb, _, _⟩
        · rcases hout ρ with h | h
          · exact Or.inl (h0.trans h)
          · refine Or.inr ?_
            rw [h0]
            exact fun hmem => h (List.mem_cons_of_mem c hmem)
        · refine Or.inr ?_
          rw [hb]
          exact hcnotmem
      · intro ρ σ hne hρ hσ
        rcases guessStep_newOrOld m c ρ with hρ0 | ⟨hρa, hρb, hρc, _⟩ <;>
          rcases guessStep_newOrOld m c σ with hσ0 | ⟨hσa, hσb, hσc, _⟩
        · rw [hρ0] at hρ ⊢
          rw [hσ0] at hσ ⊢
          exact hdis ρ σ hne hρ hσ
        · rw [hρ0] at hρ ⊢
          rw [hσb] at hσ ⊢
          rcases hout ρ with h | h
          · exact absurd h hρ
          · exact fun he => h (he ▸ List.mem_cons_self c cols)
        · rw [hσ0] at hσ ⊢
          rw [hρb] at hρ ⊢
          rcases hout σ with h | h
          · exact absurd h hσ
          · exact fun he => h (he.symm ▸ List.mem_cons_self c cols)
        · exfalso
          rcases guessStep_two m c ρ σ hne with h | h
          · rw [hρb, hρa] at h
            rw [hρb] at hρ
            exact hρ h
          · rw [hσb, hσa] at h
            rw [hσb] at hσ
            exact hσ h

/-- Claim C6: over a table with distinct column labels, the classifier
assigns each role to at most one column and never two roles to the same
column; every assigned column matches the role keywords, is a column of
the table, and never starts with the internal marker prefix; and a role
is resolved to a column only when every earlier eligible matching column
was claimed by a strictly higher-priority role (first match wins). -/
theorem claim_C6 (cols : List String) (hnd : cols.Nodup) :
    (∀ ρ σ, ρ ≠ σ → getRole (guessColumnMap cols) ρ ≠ "" →
      getRole (guessColumnMap cols) σ ≠ "" →
      getRole (guessColumnMap cols) ρ ≠ getRole (guessColumnMap cols) σ) ∧
    (∀ ρ, getRole (guessColumnMap cols) ρ ≠ "" →
      getRole (guessColumnMap cols) ρ ∈ cols ∧
      roleMatches ρ (getRole (guessColumnMap cols) ρ) = true ∧
      strStarts (getRole (guessColumnMap cols) ρ) "_" = false) ∧
    (∀ ρ l1 l2, cols = l1 ++ l2 → getRole (guessColumnMap cols) ρ ∈ l2 →
      ∀ c ∈ l1, eligMatch ρ c = true →
      ∃ σ, rolePriority σ < rolePriority ρ ∧
        getRole (guessColumnMap cols) σ = c) := by
  have hempty : ∀ ρ, getRole emptyColumnMap ρ = "" := by
    intro ρ
    cases ρ <;> rfl
  refine ⟨?_, ?_, ?_⟩
  · exact guessFold_distinct cols emptyColumnMap hnd
      (fun ρ => Or.inl (hempty ρ))
      (fun ρ σ _ hρ _ => absurd (hempty ρ) hρ)
  · intro ρ hne
    rcases guessFold_assigned cols emptyColumnMap ρ with h | h
    · exact absurd (h.trans (hempty ρ)) hne
    · exact h
  · intro ρ l1 l2 heq hmem c hc helig
    subst heq
    have hdisj := (List.nodup_append.mp hnd).2.2
    rw [guessColumnMap, List.foldl_append] at hmem ⊢
    have hm1 : getRole (l1.foldl guessStep emptyColumnMap) ρ = "" := by
      by_contra hne
      have hpres := guessFold_preserve l2 (l1.foldl guessStep emptyColumnMap) ρ hne
      rcases guessFold_assigned l1 emptyColumnMap ρ with h | ⟨h1, _, _⟩
      · exact hne (h.trans (hempty ρ))
      · rw [hpres] at hmem
        exact hdisj h1 hmem
    obtain ⟨σ, hσp, hσc⟩ := guessFold_B2 l1 emptyColumnMap ρ c helig hm1 hc
    have hcne : c ≠ "" :=
      roleMatches_ne_empty ρ c (Bool.and_eq_true _ _ |>.mp helig).2
    refine ⟨σ, hσp, ?_⟩
    rw [guessFold_preserve l2 _ σ (by rw [hσc]; exact hcne)]
    exact hσc

theorem claim_C6_witness :
    getRole (guessColumnMap ["Item", "Price"]) Role.item ∈ (["Item", "Price"] : List String) ∧
    roleMatches Role.item (getRole (guessColumnMap ["Item", "Price"]) Role.item) = true ∧
    strStarts (getRole (guessColumnMap ["Item", "Price"]) Role.item) "_" = false :=
  (claim_C6 ["Item", "Price"] (by decide)).2.1 Role.item (by decide)
